import Mathlib

/-!
Shallow embedding of the protocol-adapter core of `antigravity2api-nodejs`
(`src/utils/utils.js`): the message-history transcoder, the model-policy
resolver, the generation-config builder, the tool-schema normalizer and the
request-envelope builder, together with theorems about the behaviour of
these functions.

JavaScript strings are modelled as Lean `String`, JavaScript numbers that
the adapter merely passes through (sampling parameters, token budgets) as
`Int` — no theorem below depends on a fractional value.  An absent / and
`undefined` JSON field is modelled as `Option.none`.
-/

namespace AG

/-- Character class used by the JavaScript `trim` family (whitespace and
line terminators). -/
def jsWhitespaceChar (c : Char) : Bool :=
  c = ' ' || c = '\t' || c = '\n' || c = '\r' ||
  c = Char.ofNat 11 || c = Char.ofNat 12 || c = Char.ofNat 0xA0 || c = Char.ofNat 0xFEFF

/-- JavaScript `String.prototype.trim`. -/
def jsTrim (s : String) : String :=
  ⟨((s.data.dropWhile jsWhitespaceChar).reverse.dropWhile jsWhitespaceChar).reverse⟩

/-- JavaScript `String.prototype.trimEnd`. -/
def jsTrimEnd (s : String) : String :=
  ⟨(s.data.reverse.dropWhile jsWhitespaceChar).reverse⟩

/-- JavaScript `String.prototype.startsWith`. -/
def jsStartsWith (s pre : String) : Bool :=
  s.data.take pre.data.length = pre.data

/-- JavaScript `String.prototype.endsWith`. -/
def jsEndsWith (s suf : String) : Bool :=
  s.data.reverse.take suf.data.length = suf.data.reverse

/-- JavaScript `String.prototype.includes`. -/
def jsIncludes (s sub : String) : Bool :=
  (List.range (s.data.length + 1)).any
    (fun i => (s.data.drop i).take sub.data.length = sub.data)

/-- JavaScript `Array.prototype.join`. -/
def jsJoin (sep : String) : List String → String
  | [] => ""
  | [x] => x
  | x :: y :: rest => x ++ sep ++ jsJoin sep (y :: rest)

/-! ## JSON values (tool parameter schemas) -/

/-- A JSON value, as handled by the tool-schema normalizer
(`cleanParameters`). -/
inductive Json where
  | null
  | bool (b : Bool)
  | num (n : Int)
  | str (s : String)
  | arr (elems : List Json)
  | obj (fields : List (String × Json))
deriving Repr

/-- `EXCLUDED_KEYS` from `src/utils/utils.js`: JSON-Schema keywords stripped
by the normalizer. -/
def EXCLUDED_KEYS : List String :=
  ["$schema", "additionalProperties", "minLength", "maxLength",
   "minItems", "maxItems", "uniqueItems"]

mutual
/-- `cleanParameters` from `src/utils/utils.js`: recursively drops the
`EXCLUDED_KEYS` entries of every object, preserving everything else.
Non-object leaves pass through unchanged. -/
def cleanParameters : Json → Json
  | .null => .null
  | .bool b => .bool b
  | .num n => .num n
  | .str s => .str s
  | .arr elems => .arr (cleanJsonList elems)
  | .obj fields => .obj (cleanJsonFields fields)

/-- `cleanParameters` mapped over the elements of a JSON array
(`Object.entries` of a JavaScript array yields its index/value pairs, and
no array index is in `EXCLUDED_KEYS`). -/
def cleanJsonList : List Json → List Json
  | [] => []
  | x :: xs => cleanParameters x :: cleanJsonList xs

/-- The entry loop of `cleanParameters` over an object's key/value pairs. -/
def cleanJsonFields : List (String × Json) → List (String × Json)
  | [] => []
  | (k, v) :: rest =>
    if EXCLUDED_KEYS.contains k then cleanJsonFields rest
    else (k, cleanParameters v) :: cleanJsonFields rest
end

/-! ## Client messages (OpenAI wire format) -/

/-- One item of a multimodal `content` array. -/
inductive ContentItem where
  | text (text : String)
  | image_url (url : String)
  | other
deriving Repr, DecidableEq

/-- A client message's `content` field: a plain string, a multimodal item
list, or absent (`undefined` / `null`). -/
inductive ClientContent where
  | str (s : String)
  | list (items : List ContentItem)
  | undef
deriving Repr, DecidableEq

/-- The `function` record inside an OpenAI tool call. -/
structure ToolCallFunction where
  name : String
  arguments : String
deriving Repr, DecidableEq

/-- One entry of an assistant message's `tool_calls` array. -/
structure ToolCall where
  id : String
  function : ToolCallFunction
deriving Repr, DecidableEq

/-- An OpenAI-style client message.  An absent `tool_calls` array is
modelled as `[]` and an absent `tool_call_id` as `""` (neither is read in
the cases where it is absent). -/
structure ClientMessage where
  role : String
  content : ClientContent
  tool_calls : List ToolCall
  tool_call_id : String
deriving Repr, DecidableEq

/-! ## Upstream turns and parts -/

/-- The `args` object of a `functionCall` part: the call's raw argument
string is carried verbatim under the single key `query`. -/
structure FunctionArgs where
  query : String
deriving Repr, DecidableEq

/-- A `functionCall` part's payload. -/
structure FunctionCall where
  id : String
  name : String
  args : FunctionArgs
deriving Repr, DecidableEq

/-- The `response` object of a `functionResponse` part: the tool message's
`content` is carried verbatim under `output`. -/
structure FunctionResponseData where
  output : ClientContent
deriving Repr, DecidableEq

/-- A `functionResponse` part's payload. -/
structure FunctionResponse where
  id : String
  name : String
  response : FunctionResponseData
deriving Repr, DecidableEq

/-- One part of an upstream turn. -/
inductive Part where
  | text (text : String)
  | inlineData (mimeType : String) (data : String)
  | functionCall (fc : FunctionCall)
  | functionResponse (fr : FunctionResponse)
deriving Repr, DecidableEq

/-- One upstream turn (an element of `antigravityMessages`). -/
structure Turn where
  role : String
  parts : List Part
deriving Repr, DecidableEq

/-- Result of `extractImagesFromContent`. -/
structure Extracted where
  text : String
  images : List Part
deriving Repr, DecidableEq

/-- The regular expression `^data:image\/(\w+);base64,(.+)$` of
`extractImagesFromContent`: returns the captured format and payload when
the URL matches (`.` does not match a line terminator, `$` anchors at the
very end). -/
def parseImageDataUrl (url : String) : Option (String × String) :=
  if jsStartsWith url "data:image/" then
    let rest := url.data.drop 11
    let fmt := rest.takeWhile (fun c => c.isAlphanum || c = '_')
    let rest2 := rest.drop fmt.length
    if fmt ≠ [] ∧ rest2.take 8 = ";base64,".data then
      let payload := rest2.drop 8
      if payload ≠ [] ∧ payload.all (fun c =>
          c ≠ '\n' ∧ c ≠ '\r' ∧ c ≠ Char.ofNat 0x2028 ∧ c ≠ Char.ofNat 0x2029) then
        some (⟨fmt⟩, ⟨payload⟩)
      else Option.none
    else Option.none
  else Option.none

/-- `extractImagesFromContent` from `src/utils/utils.js`. -/
def extractImagesFromContent : ClientContent → Extracted
  | .str s => { text := s, images := [] }
  | .list items =>
    items.foldl (fun result item =>
      match item with
      | .text t => { result with text := result.text ++ t }
      | .image_url url =>
        match parseImageDataUrl url with
        | some (fmt, data) =>
          { result with images := result.images ++ [Part.inlineData ("image/" ++ fmt) data] }
        | Option.none => result
      | .other => result) { text := "", images := [] }
  | .undef => { text := "", images := [] }

/-- `handleUserMessage` from `src/utils/utils.js`: always pushes a fresh
user turn holding one text part followed by the extracted images. -/
def handleUserMessage (extracted : Extracted) (antigravityMessages : List Turn) : List Turn :=
  antigravityMessages ++ [{ role := "user", parts := Part.text extracted.text :: extracted.images }]

/-- Append further parts to the last turn of the list (in-place mutation of
`lastMessage.parts` in the JavaScript). -/
def pushToLast : List Turn → List Part → List Turn
  | [], _ => []
  | [t], ps => [{ t with parts := t.parts ++ ps }]
  | t :: t' :: rest, ps => t :: pushToLast (t' :: rest) ps

/-- Whether a `content` value is a JavaScript array (on which calling
`.trim()` throws a `TypeError`). -/
def contentIsArray : ClientContent → Bool
  | .list _ => true
  | _ => false

/-- The `functionCall` payload that `handleAssistantMessage` builds from one
tool call. -/
def fcOfToolCall (toolCall : ToolCall) : FunctionCall :=
  { id := toolCall.id, name := toolCall.function.name,
    args := { query := toolCall.function.arguments } }

/-- `handleAssistantMessage` from `src/utils/utils.js`.  `Option.none`
models the `TypeError` thrown by `message.content.trim()` when `content`
is an array (arrays are truthy and have no `trim` method). -/
def handleAssistantMessage (message : ClientMessage) (antigravityMessages : List Turn) :
    Option (List Turn) :=
  if contentIsArray message.content then Option.none else
  let hasToolCalls := !message.tool_calls.isEmpty
  let hasContent := match message.content with
    | .str s => s ≠ "" && jsTrim s ≠ ""
    | _ => false
  let antigravityTools : List Part :=
    if hasToolCalls then
      message.tool_calls.map (fun toolCall => Part.functionCall (fcOfToolCall toolCall))
    else []
  let lastIsModel := match antigravityMessages.getLast? with
    | some t => t.role = "model"
    | Option.none => false
  if lastIsModel && hasToolCalls && !hasContent then
    some (pushToLast antigravityMessages antigravityTools)
  else
    let textParts : List Part := if hasContent then
        match message.content with
        | .str s => [Part.text (jsTrimEnd s)]
        | _ => []
      else []
    some (antigravityMessages ++ [{ role := "model", parts := textParts ++ antigravityTools }])

/-- The inner loop of `handleToolCall`'s backward scan: the name of the
first `functionCall` part of `parts` whose id matches, if any. -/
def findFunctionCallName (parts : List Part) (id : String) : Option String :=
  match parts with
  | [] => Option.none
  | .functionCall fc :: rest =>
    if fc.id = id then some fc.name else findFunctionCallName rest id
  | _ :: rest => findFunctionCallName rest id

/-- The outer loop of `handleToolCall`'s backward scan, over the turn list
in reverse order, carrying the current `functionName` (initially `""`).
The loop stops at the first model turn that yields a non-empty name. -/
def resolveFunctionNameRev (turnsRev : List Turn) (id : String) (functionName : String) : String :=
  match turnsRev with
  | [] => functionName
  | t :: rest =>
    if t.role = "model" then
      let functionName' := (findFunctionCallName t.parts id).getD functionName
      if functionName' ≠ "" then functionName'
      else resolveFunctionNameRev rest id functionName'
    else resolveFunctionNameRev rest id functionName

/-- Resolve a `tool_call_id` to the originating function name by scanning
backward through the already-produced turns (`""` when unresolved). -/
def resolveFunctionName (turns : List Turn) (id : String) : String :=
  resolveFunctionNameRev turns.reverse id ""

/-- Whether a part is a `functionResponse` (the merge test
`lastMessage.parts.some(p => p.functionResponse)`). -/
def partIsFunctionResponse : Part → Bool
  | .functionResponse _ => true
  | _ => false

/-- `handleToolCall` from `src/utils/utils.js`. -/
def handleToolCall (message : ClientMessage) (antigravityMessages : List Turn) : List Turn :=
  let functionName := resolveFunctionName antigravityMessages message.tool_call_id
  let functionResponse : Part := Part.functionResponse
    { id := message.tool_call_id, name := functionName,
      response := { output := message.content } }
  let lastIsUserWithResponse := match antigravityMessages.getLast? with
    | some t => t.role = "user" && t.parts.any partIsFunctionResponse
    | Option.none => false
  if lastIsUserWithResponse then
    pushToLast antigravityMessages [functionResponse]
  else
    antigravityMessages ++ [{ role := "user", parts := [functionResponse] }]

/-- One iteration of the message loop of `openaiMessageToAntigravity`
(mid-list `system` messages are handled like `user`; unknown roles are
skipped). -/
def transcodeStep (turns : List Turn) (message : ClientMessage) : Option (List Turn) :=
  if message.role = "user" then
    some (handleUserMessage (extractImagesFromContent message.content) turns)
  else if message.role = "system" then
    some (handleUserMessage (extractImagesFromContent message.content) turns)
  else if message.role = "assistant" then
    handleAssistantMessage message turns
  else if message.role = "tool" then
    some (handleToolCall message turns)
  else
    some turns

/-- The message loop of `openaiMessageToAntigravity`, starting from an
already-accumulated turn list. -/
def openaiMessageToAntigravityAux : List ClientMessage → List Turn → Option (List Turn)
  | [], turns => some turns
  | message :: rest, turns =>
    match transcodeStep turns message with
    | some turns' => openaiMessageToAntigravityAux rest turns'
    | Option.none => Option.none

/-- `openaiMessageToAntigravity` from `src/utils/utils.js`. -/
def openaiMessageToAntigravity (openaiMessages : List ClientMessage) : Option (List Turn) :=
  openaiMessageToAntigravityAux openaiMessages []

/-! ## System-instruction extraction -/

/-- The text a `system` message contributes to the system instruction:
string content verbatim; for an item list the concatenation of the
`text`-typed items; `""` otherwise. -/
def systemContentText : ClientContent → String
  | .str s => s
  | .list items =>
    jsJoin "" (items.filterMap (fun item =>
      match item with
      | .text t => some t
      | _ => Option.none))
  | .undef => ""

/-- The collection loop of `extractSystemInstruction`: trimmed texts of the
maximal leading run of `system` messages, skipping whitespace-only ones. -/
def collectLeadingSystemTexts : List ClientMessage → List String
  | [] => []
  | message :: rest =>
    if message.role = "system" then
      let content := systemContentText message.content
      if jsTrim content ≠ "" then jsTrim content :: collectLeadingSystemTexts rest
      else collectLeadingSystemTexts rest
    else []

/-- External configuration consumed by the builder (`config.defaults` and
`config.systemInstruction`). -/
structure ConfigDefaults where
  temperature : Option Int
  top_p : Option Int
  top_k : Option Int
  max_tokens : Option Int
  thinking_budget : Option Int
deriving Repr, DecidableEq

/-- The configuration object imported by `src/utils/utils.js` (an absent
`systemInstruction` is modelled as `""`, which `config.systemInstruction
|| ''` also produces). -/
structure Config where
  systemInstruction : String
  defaults : ConfigDefaults
deriving Repr, DecidableEq

/-- `extractSystemInstruction` from `src/utils/utils.js`: the trimmed base
instruction followed by the trimmed leading `system` texts joined by blank
lines. -/
def extractSystemInstruction (config : Config) (openaiMessages : List ClientMessage) : String :=
  let baseSystem := config.systemInstruction
  let systemTexts := collectLeadingSystemTexts openaiMessages
  let parts : List String :=
    (if jsTrim baseSystem ≠ "" then [jsTrim baseSystem] else []) ++
    (if systemTexts ≠ [] then [jsJoin "\n\n" systemTexts] else [])
  jsJoin "\n\n" parts

/-! ## Generation config and model policy -/

/-- `REASONING_EFFORT_MAP` from `src/utils/utils.js`. -/
def REASONING_EFFORT_MAP (effort : String) : Option Int :=
  if effort = "low" then some 1024
  else if effort = "medium" then some 16000
  else if effort = "high" then some 32000
  else Option.none

/-- The client-supplied generation-parameter object. -/
structure Parameters where
  thinking_budget : Option Int
  reasoning_effort : Option String
  top_p : Option Int
  top_k : Option Int
  temperature : Option Int
  max_tokens : Option Int
deriving Repr, DecidableEq

/-- The `thinkingConfig` record of a generation config. -/
structure ThinkingConfig where
  includeThoughts : Bool
  thinkingBudget : Int
deriving Repr, DecidableEq

/-- The generation config built by `generateGenerationConfig`; an `Option`
field is absent from the JSON when it is `Option.none`. -/
structure GenerationConfig where
  topP : Option Int
  topK : Option Int
  temperature : Option Int
  candidateCount : Int
  maxOutputTokens : Option Int
  stopSequences : List String
  thinkingConfig : ThinkingConfig
deriving Repr, DecidableEq

/-- `generateGenerationConfig` from `src/utils/utils.js` (the imported
`config` is passed explicitly). -/
def generateGenerationConfig (config : Config) (parameters : Parameters)
    (enableThinking : Bool) (actualModelName : String) : GenerationConfig :=
  let defaultThinkingBudget := config.defaults.thinking_budget.getD 16000
  let thinkingBudget : Int :=
    if enableThinking then
      match parameters.thinking_budget with
      | some b => b
      | Option.none =>
        match parameters.reasoning_effort with
        | some effort => (REASONING_EFFORT_MAP effort).getD defaultThinkingBudget
        | Option.none => defaultThinkingBudget
    else 0
  let generationConfig : GenerationConfig :=
    { topP := parameters.top_p <|> config.defaults.top_p
      topK := parameters.top_k <|> config.defaults.top_k
      temperature := parameters.temperature <|> config.defaults.temperature
      candidateCount := 1
      maxOutputTokens := parameters.max_tokens <|> config.defaults.max_tokens
      stopSequences :=
        ["<|user|>", "<|bot|>", "<|context_request|>", "<|endoftext|>", "<|end_of_turn|>"]
      thinkingConfig := { includeThoughts := enableThinking, thinkingBudget := thinkingBudget } }
  if enableThinking && jsIncludes actualModelName "claude" then
    { generationConfig with topP := Option.none }
  else generationConfig

/-- `modelMapping` from `src/utils/utils.js`: the model alias table. -/
def modelMapping (modelName : String) : String :=
  if modelName = "claude-sonnet-4-5-thinking" then "claude-sonnet-4-5"
  else if modelName = "claude-opus-4-5" then "claude-opus-4-5-thinking"
  else if modelName = "gemini-2.5-flash-thinking" then "gemini-2.5-flash"
  else modelName

/-- `isEnableThinking` from `src/utils/utils.js`: the thinking policy on the
client-facing model identifier. -/
def isEnableThinking (modelName : String) : Bool :=
  jsEndsWith modelName "-thinking" ||
  modelName = "gemini-2.5-pro" ||
  jsStartsWith modelName "gemini-3-pro-" ||
  modelName = "rev19-uic3-1p" ||
  modelName = "gpt-oss-120b-medium"

/-! ## Tool declarations -/

/-- The `function` record of a client tool declaration. -/
structure OpenAIFunctionDef where
  name : String
  description : String
  parameters : Json
deriving Repr

/-- One client tool declaration. -/
structure OpenAITool where
  function : OpenAIFunctionDef
deriving Repr

/-- One entry of an upstream `functionDeclarations` list. -/
structure FunctionDeclaration where
  name : String
  description : String
  parameters : Json
deriving Repr

/-- One upstream tool. -/
structure AntigravityTool where
  functionDeclarations : List FunctionDeclaration
deriving Repr

/-- `convertOpenAIToolsToAntigravity` from `src/utils/utils.js` (an absent
`openaiTools` argument is modelled as `[]`, which the guard
`!openaiTools || openaiTools.length === 0` treats identically). -/
def convertOpenAIToolsToAntigravity (openaiTools : List OpenAITool) : List AntigravityTool :=
  if openaiTools.isEmpty then []
  else openaiTools.map (fun tool =>
    { functionDeclarations :=
        [{ name := tool.function.name,
           description := tool.function.description,
           parameters := cleanParameters tool.function.parameters }] })

/-! ## The request envelope -/

/-- The bound credential (`token`) consumed by the builder. -/
structure Token where
  projectId : String
  sessionId : String
deriving Repr, DecidableEq

/-- `toolConfig.functionCallingConfig`. -/
structure FunctionCallingConfig where
  mode : String
deriving Repr, DecidableEq

/-- The constant `toolConfig` of every request. -/
structure ToolConfig where
  functionCallingConfig : FunctionCallingConfig
deriving Repr, DecidableEq

/-- The `systemInstruction` field value attached to a request. -/
structure SystemInstructionField where
  role : String
  parts : List Part
deriving Repr, DecidableEq

/-- The `request` sub-object of the envelope.  `tools` and
`systemInstruction` are `Option`s so that the presence of the JSON field
is part of the model: `Option.none` means the field is absent from the
serialized request. -/
structure RequestPayload where
  contents : List Turn
  tools : Option (List AntigravityTool)
  toolConfig : ToolConfig
  generationConfig : GenerationConfig
  sessionId : String
  systemInstruction : Option SystemInstructionField
deriving Repr

/-- The outgoing request envelope. -/
structure RequestBody where
  project : String
  requestId : String
  request : RequestPayload
  model : String
  userAgent : String
deriving Repr

/-- The `startIndex` loop of `generateRequestBody`: the length of the
maximal leading run of `system` messages. -/
def countLeadingSystem : List ClientMessage → Nat
  | [] => 0
  | message :: rest =>
    if message.role = "system" then countLeadingSystem rest + 1 else 0

/-- `generateRequestBody` from `src/utils/utils.js`.  The imported `config`
and the freshly generated `requestId` are passed explicitly; `Option.none`
models the build aborting because the transcoder threw. -/
def generateRequestBody (config : Config) (openaiMessages : List ClientMessage)
    (modelName : String) (parameters : Parameters) (openaiTools : List OpenAITool)
    (token : Token) (requestId : String) : Option RequestBody :=
  let enableThinking := isEnableThinking modelName
  let actualModelName := modelMapping modelName
  let mergedSystemInstruction := extractSystemInstruction config openaiMessages
  let filteredMessages := openaiMessages.drop (countLeadingSystem openaiMessages)
  match openaiMessageToAntigravity filteredMessages with
  | Option.none => Option.none
  | some contents =>
    some
      { project := token.projectId
        requestId := requestId
        request :=
          { contents := contents
            tools := some (convertOpenAIToolsToAntigravity openaiTools)
            toolConfig := { functionCallingConfig := { mode := "VALIDATED" } }
            generationConfig :=
              generateGenerationConfig config parameters enableThinking actualModelName
            sessionId := token.sessionId
            systemInstruction :=
              if mergedSystemInstruction ≠ "" then
                some { role := "user", parts := [Part.text mergedSystemInstruction] }
              else Option.none }
        model := actualModelName
        userAgent := "antigravity" }

/-! ## Derived notions used by the statements -/

/-- No two adjacent turns of the list carry the same role (the merged-turn
invariant claimed by the specification). -/
def noAdjacentSameRole : List Turn → Bool
  | t1 :: t2 :: rest => (t1.role != t2.role) && noAdjacentSameRole (t2 :: rest)
  | _ => true

/-- The id carried by a part, when the part is a `functionCall`. -/
def partCallId : Part → Option String
  | .functionCall fc => some fc.id
  | _ => Option.none

/-- All `functionCall` payloads of a part list, in order. -/
def callsInParts : List Part → List FunctionCall
  | [] => []
  | .functionCall fc :: rest => fc :: callsInParts rest
  | _ :: rest => callsInParts rest

/-- All `functionCall` payloads of a turn list, in order. -/
def callsInTurns : List Turn → List FunctionCall
  | [] => []
  | t :: rest => callsInParts t.parts ++ callsInTurns rest

/-- All `functionResponse` payloads of a part list, in order. -/
def responsesInParts : List Part → List FunctionResponse
  | [] => []
  | .functionResponse fr :: rest => fr :: responsesInParts rest
  | _ :: rest => responsesInParts rest

/-- All `functionResponse` payloads of a turn list, in order. -/
def responsesInTurns : List Turn → List FunctionResponse
  | [] => []
  | t :: rest => responsesInParts t.parts ++ responsesInTurns rest

/-- The concatenation of the `tool_calls` arrays of a message list. -/
def flatToolCalls : List ClientMessage → List ToolCall
  | [] => []
  | m :: rest => m.tool_calls ++ flatToolCalls rest

/-- `functionCall` parts only ever live in turns of role `model`. -/
def modelOnlyCalls (turns : List Turn) : Prop :=
  ∀ t ∈ turns, t.role ≠ "model" → callsInParts t.parts = []

/-! ## Concrete sample inputs for the witnesses and counterexamples -/

/-- A configuration with no defaults and an empty base instruction. -/
def emptyDefaults : ConfigDefaults :=
  { temperature := Option.none, top_p := Option.none, top_k := Option.none,
    max_tokens := Option.none, thinking_budget := Option.none }

/-- Sample configuration: empty base instruction, no defaults. -/
def sampleConfig : Config := { systemInstruction := "", defaults := emptyDefaults }

/-- Configuration whose base instruction carries a trailing space. -/
def trailingSpaceConfig : Config := { systemInstruction := "a ", defaults := emptyDefaults }

/-- Configuration with the base instruction `"Base"`. -/
def baseInstructionConfig : Config := { systemInstruction := "Base", defaults := emptyDefaults }

/-- Parameters with every field absent. -/
def emptyParameters : Parameters :=
  { thinking_budget := Option.none, reasoning_effort := Option.none, top_p := Option.none,
    top_k := Option.none, temperature := Option.none, max_tokens := Option.none }

/-- Parameters that explicitly request a thinking budget and an effort. -/
def sampleParameters : Parameters :=
  { emptyParameters with thinking_budget := some 999, reasoning_effort := some "high" }

/-- A sample bound credential. -/
def sampleToken : Token := { projectId := "p", sessionId := "s" }

/-- A plain user message saying `"Hi"`. -/
def userHi : ClientMessage :=
  { role := "user", content := .str "Hi", tool_calls := [], tool_call_id := "" }

/-- A plain user message with the given text. -/
def plainUserMessage (s : String) : ClientMessage :=
  { role := "user", content := .str s, tool_calls := [], tool_call_id := "" }

/-- The generation config produced for a non-thinking model from
`sampleConfig` and `emptyParameters`. -/
def plainGenerationConfig : GenerationConfig :=
  { topP := Option.none, topK := Option.none, temperature := Option.none,
    candidateCount := 1, maxOutputTokens := Option.none,
    stopSequences :=
      ["<|user|>", "<|bot|>", "<|context_request|>", "<|endoftext|>", "<|end_of_turn|>"],
    thinkingConfig := { includeThoughts := false, thinkingBudget := 0 } }

/-- The envelope built from `sampleConfig`, `[userHi]`, model
`"claude-opus-4-5"`, no tools, `emptyParameters` and `sampleToken`. -/
def opusWitnessBody : RequestBody :=
  { project := "p", requestId := "req-1",
    request :=
      { contents := [{ role := "user", parts := [Part.text "Hi"] }]
        tools := some []
        toolConfig := { functionCallingConfig := { mode := "VALIDATED" } }
        generationConfig := plainGenerationConfig
        sessionId := "s"
        systemInstruction := Option.none }
    model := "claude-opus-4-5-thinking", userAgent := "antigravity" }

/-- The envelope built from `sampleConfig`, `[userHi]`, model `"gpt-4o"`,
no tools, `emptyParameters` and `sampleToken`. -/
def gptWitnessBody : RequestBody :=
  { project := "p", requestId := "req-2",
    request :=
      { contents := [{ role := "user", parts := [Part.text "Hi"] }]
        tools := some []
        toolConfig := { functionCallingConfig := { mode := "VALIDATED" } }
        generationConfig := plainGenerationConfig
        sessionId := "s"
        systemInstruction := Option.none }
    model := "gpt-4o", userAgent := "antigravity" }

/-- The envelope built from `baseInstructionConfig`, `[userHi]`, model
`"gpt-4o"`, no tools, `emptyParameters` and `sampleToken`. -/
def baseInstructionWitnessBody : RequestBody :=
  { project := "p", requestId := "req-3",
    request :=
      { contents := [{ role := "user", parts := [Part.text "Hi"] }]
        tools := some []
        toolConfig := { functionCallingConfig := { mode := "VALIDATED" } }
        generationConfig := plainGenerationConfig
        sessionId := "s"
        systemInstruction := some { role := "user", parts := [Part.text "Base"] } }
    model := "gpt-4o", userAgent := "antigravity" }

/-- A tool message whose id matches nothing (for the C6 witness). -/
def c6Message : ClientMessage :=
  { role := "tool", content := .str "r", tool_calls := [], tool_call_id := "missing" }

/-- An accumulated turn list holding a functionCall with a different id. -/
def c6Turns : List Turn :=
  [{ role := "model",
     parts := [Part.functionCall { id := "other", name := "g", args := { query := "x" } }] }]

/-- The degraded functionResponse part emitted for `c6Message`. -/
def c6Response : Part :=
  Part.functionResponse
    { id := "missing", name := "", response := { output := .str "r" } }

/-! ## Bookkeeping lemmas for the transcoder invariants -/

theorem callsInParts_append (ps qs : List Part) :
    callsInParts (ps ++ qs) = callsInParts ps ++ callsInParts qs := by
  induction ps with
  | nil => rfl
  | cons p rest ih => cases p <;> simp [callsInParts, ih]

theorem responsesInParts_append (ps qs : List Part) :
    responsesInParts (ps ++ qs) = responsesInParts ps ++ responsesInParts qs := by
  induction ps with
  | nil => rfl
  | cons p rest ih => cases p <;> simp [responsesInParts, ih]

theorem callsInTurns_append (ts us : List Turn) :
    callsInTurns (ts ++ us) = callsInTurns ts ++ callsInTurns us := by
  induction ts with
  | nil => rfl
  | cons t rest ih => simp [callsInTurns, ih]

theorem responsesInTurns_append (ts us : List Turn) :
    responsesInTurns (ts ++ us) = responsesInTurns ts ++ responsesInTurns us := by
  induction ts with
  | nil => rfl
  | cons t rest ih => simp [responsesInTurns, ih]

theorem callsInParts_map_fc (l : List ToolCall) :
    callsInParts (l.map (fun tc => Part.functionCall (fcOfToolCall tc))) =
      l.map fcOfToolCall := by
  induction l with
  | nil => rfl
  | cons tc rest ih => simp [callsInParts, ih]

theorem responsesInParts_map_fc (l : List ToolCall) :
    responsesInParts (l.map (fun tc => Part.functionCall (fcOfToolCall tc))) = [] := by
  induction l with
  | nil => rfl
  | cons tc rest ih => simp [responsesInParts, ih]

theorem pushToLast_concat (front : List Turn) (t : Turn) (ps : List Part) :
    pushToLast (front ++ [t]) ps = front ++ [{ t with parts := t.parts ++ ps }] := by
  induction front with
  | nil => rfl
  | cons f fs ih =>
    cases fs with
    | nil => rfl
    | cons f2 fs2 =>
      simp only [List.cons_append, List.append_eq, pushToLast] at ih ⊢
      rw [ih]

theorem mem_callsInTurns {fc : FunctionCall} {l : List Turn} :
    fc ∈ callsInTurns l ↔ ∃ t ∈ l, fc ∈ callsInParts t.parts := by
  induction l with
  | nil => simp [callsInTurns]
  | cons t rest ih => simp [callsInTurns, ih, List.mem_append]

theorem map_id_fcOfToolCall (l : List ToolCall) :
    (l.map fcOfToolCall).map FunctionCall.id = l.map ToolCall.id := by
  induction l with
  | nil => rfl
  | cons tc rest ih => simp [fcOfToolCall, ih]

theorem findFunctionCallName_eq_some (parts : List Part) (id n : String)
    (h : findFunctionCallName parts id = some n) :
    ∃ fc ∈ callsInParts parts, fc.id = id ∧ fc.name = n := by
  induction parts with
  | nil => exact absurd h (by simp [findFunctionCallName])
  | cons p rest ih =>
    cases p with
    | functionCall fc =>
      by_cases hid : fc.id = id
      · simp only [findFunctionCallName, if_pos hid] at h
        injection h with h2
        exact ⟨fc, by simp [callsInParts], hid, h2⟩
      · simp only [findFunctionCallName, if_neg hid] at h
        obtain ⟨fc2, hmem, hprop⟩ := ih h
        exact ⟨fc2, by simp [callsInParts, hmem], hprop⟩
    | text s =>
      obtain ⟨fc2, hmem, hprop⟩ := ih (by simpa [findFunctionCallName] using h)
      exact ⟨fc2, by simp [callsInParts, hmem], hprop⟩
    | inlineData m d =>
      obtain ⟨fc2, hmem, hprop⟩ := ih (by simpa [findFunctionCallName] using h)
      exact ⟨fc2, by simp [callsInParts, hmem], hprop⟩
    | functionResponse fr =>
      obtain ⟨fc2, hmem, hprop⟩ := ih (by simpa [findFunctionCallName] using h)
      exact ⟨fc2, by simp [callsInParts, hmem], hprop⟩

theorem findFunctionCallName_none_no_match (parts : List Part) (id : String)
    (h : findFunctionCallName parts id = Option.none) :
    ∀ fc ∈ callsInParts parts, fc.id ≠ id := by
  induction parts with
  | nil => simp [callsInParts]
  | cons p rest ih =>
    cases p with
    | functionCall fc =>
      by_cases hid : fc.id = id
      · simp only [findFunctionCallName, if_pos hid] at h
        exact absurd h (by simp)
      · simp only [findFunctionCallName, if_neg hid] at h
        intro fc2 hmem
        rcases (by simpa [callsInParts] using hmem : fc2 = fc ∨ fc2 ∈ callsInParts rest) with
          rfl | hmem2
        · exact hid
        · exact ih h fc2 hmem2
    | text s =>
      intro fc2 hmem
      exact ih (by simpa [findFunctionCallName] using h) fc2 (by simpa [callsInParts] using hmem)
    | inlineData m d =>
      intro fc2 hmem
      exact ih (by simpa [findFunctionCallName] using h) fc2 (by simpa [callsInParts] using hmem)
    | functionResponse fr =>
      intro fc2 hmem
      exact ih (by simpa [findFunctionCallName] using h) fc2 (by simpa [callsInParts] using hmem)

theorem resolveFunctionNameRev_unique (id N : String) (l : List Turn)
    (hN : N ≠ "")
    (hex : ∃ t ∈ l, ∃ fc ∈ callsInParts t.parts, fc.id = id)
    (hall : ∀ t ∈ l, ∀ fc ∈ callsInParts t.parts, fc.id = id → fc.name = N)
    (hmodel : ∀ t ∈ l, t.role ≠ "model" → callsInParts t.parts = []) :
    resolveFunctionNameRev l id "" = N := by
  induction l with
  | nil => simp at hex
  | cons t rest ih =>
    by_cases hrole : t.role = "model"
    · rcases hfind : findFunctionCallName t.parts id with _ | n
      · have hnom := findFunctionCallName_none_no_match t.parts id hfind
        have hex2 : ∃ u ∈ rest, ∃ fc ∈ callsInParts u.parts, fc.id = id := by
          rcases hex with ⟨u, hu, fc, hfc, hid⟩
          rcases List.mem_cons.mp hu with rfl | hu2
          · exact absurd hid (hnom fc hfc)
          · exact ⟨u, hu2, fc, hfc, hid⟩
        have := ih hex2 (fun u hu => hall u (List.mem_cons_of_mem _ hu))
          (fun u hu => hmodel u (List.mem_cons_of_mem _ hu))
        simpa [resolveFunctionNameRev, hrole, hfind] using this
      · obtain ⟨fc, hfc, hid, hname⟩ := findFunctionCallName_eq_some t.parts id n hfind
        have hnN : n = N := hname ▸ hall t (List.mem_cons_self _ _) fc hfc hid
        subst hnN
        simp [resolveFunctionNameRev, hrole, hfind, hN]
    · have hempty := hmodel t (List.mem_cons_self _ _) hrole
      have hex2 : ∃ u ∈ rest, ∃ fc ∈ callsInParts u.parts, fc.id = id := by
        rcases hex with ⟨u, hu, fc, hfc, hid⟩
        rcases List.mem_cons.mp hu with rfl | hu2
        · rw [hempty] at hfc
          simp at hfc
        · exact ⟨u, hu2, fc, hfc, hid⟩
      have := ih hex2 (fun u hu => hall u (List.mem_cons_of_mem _ hu))
        (fun u hu => hmodel u (List.mem_cons_of_mem _ hu))
      simpa [resolveFunctionNameRev, hrole] using this

theorem resolveFunctionName_unique (turns : List Turn) (id N : String)
    (hN : N ≠ "")
    (hex : ∃ fc ∈ callsInTurns turns, fc.id = id)
    (hall : ∀ fc ∈ callsInTurns turns, fc.id = id → fc.name = N)
    (hmodel : modelOnlyCalls turns) :
    resolveFunctionName turns id = N := by
  apply resolveFunctionNameRev_unique id N turns.reverse hN
  · rcases hex with ⟨fc, hmem, hid⟩
    obtain ⟨t, ht, hfc⟩ := mem_callsInTurns.mp hmem
    exact ⟨t, List.mem_reverse.mpr ht, fc, hfc, hid⟩
  · intro t ht fc hfc hid
    exact hall fc (mem_callsInTurns.mpr ⟨t, List.mem_reverse.mp ht, hfc⟩) hid
  · intro t ht
    exact hmodel t (List.mem_reverse.mp ht)

/-! ## Lemmas -/

theorem findFunctionCallName_eq_none (id : String) (parts : List Part)
    (h : ∀ p ∈ parts, partCallId p ≠ some id) :
    findFunctionCallName parts id = Option.none := by
  induction parts with
  | nil => rfl
  | cons p rest ih =>
    have hrest := ih (fun q hq => h q (List.mem_cons_of_mem _ hq))
    cases p with
    | functionCall fc =>
      have hne : fc.id ≠ id := by
        intro he
        exact h _ (List.mem_cons_self _ _) (by simp [partCallId, he])
      simp [findFunctionCallName, hne, hrest]
    | text t => simpa [findFunctionCallName] using hrest
    | inlineData m d => simpa [findFunctionCallName] using hrest
    | functionResponse fr => simpa [findFunctionCallName] using hrest

theorem resolveFunctionNameRev_empty (id : String) (l : List Turn)
    (h : ∀ t ∈ l, ∀ p ∈ t.parts, partCallId p ≠ some id) :
    resolveFunctionNameRev l id "" = "" := by
  induction l with
  | nil => rfl
  | cons t rest ih =>
    have hrest := ih (fun u hu => h u (List.mem_cons_of_mem _ hu))
    have hfind := findFunctionCallName_eq_none id t.parts (h t (List.mem_cons_self _ _))
    by_cases hrole : t.role = "model"
    · simp [resolveFunctionNameRev, hrole, hfind, hrest]
    · simp [resolveFunctionNameRev, hrole, hrest]

theorem resolveFunctionName_empty (id : String) (turns : List Turn)
    (h : ∀ t ∈ turns, ∀ p ∈ t.parts, partCallId p ≠ some id) :
    resolveFunctionName turns id = "" :=
  resolveFunctionNameRev_empty id turns.reverse
    (fun t ht => h t (List.mem_reverse.mp ht))

mutual
theorem cleanParameters_idem_aux : ∀ j : Json,
    cleanParameters (cleanParameters j) = cleanParameters j
  | .null => rfl
  | .bool _ => rfl
  | .num _ => rfl
  | .str _ => rfl
  | .arr elems => by
    rw [cleanParameters, cleanParameters, cleanJsonList_idem_aux elems]
  | .obj fields => by
    rw [cleanParameters, cleanParameters, cleanJsonFields_idem_aux fields]

theorem cleanJsonList_idem_aux : ∀ l : List Json,
    cleanJsonList (cleanJsonList l) = cleanJsonList l
  | [] => rfl
  | x :: xs => by
    rw [cleanJsonList, cleanJsonList, cleanParameters_idem_aux x, cleanJsonList_idem_aux xs]

theorem cleanJsonFields_idem_aux : ∀ l : List (String × Json),
    cleanJsonFields (cleanJsonFields l) = cleanJsonFields l
  | [] => rfl
  | (k, v) :: rest => by
    by_cases h : EXCLUDED_KEYS.contains k = true
    · rw [cleanJsonFields, if_pos h, cleanJsonFields_idem_aux rest]
    · rw [cleanJsonFields, if_neg h, cleanJsonFields, if_neg h,
        cleanParameters_idem_aux v, cleanJsonFields_idem_aux rest]
end

/-! ## Claim theorems -/

/-- **C8** — The tool-schema normalizer is idempotent: for every
JSON-Schema-shaped value (object, array, or other leaf), applying
`cleanParameters` twice yields the same result as applying it once. -/
theorem c8_cleanParameters_idempotent (j : Json) :
    cleanParameters (cleanParameters j) = cleanParameters j :=
  cleanParameters_idem_aux j

/-- **C3** — For every parameter object and every model name whose resolved
thinking-enabled flag is false, the generation config built by
`generateGenerationConfig` has `thinkingConfig.thinkingBudget = 0`,
regardless of any client-supplied `thinking_budget` or `reasoning_effort`. -/
theorem c3_thinking_budget_forced_zero (config : Config) (parameters : Parameters)
    (modelName : String) (h : isEnableThinking modelName = false) :
    (generateGenerationConfig config parameters (isEnableThinking modelName)
        (modelMapping modelName)).thinkingConfig.thinkingBudget = 0 := by
  rw [h]
  simp [generateGenerationConfig]

/-- Witness for C3 at the model `"gpt-4o"` with a client-supplied
`thinking_budget` of 999 and `reasoning_effort` `"high"`. -/
theorem c3_thinking_budget_forced_zero_witness :
    isEnableThinking "gpt-4o" = false ∧
    (generateGenerationConfig sampleConfig sampleParameters (isEnableThinking "gpt-4o")
        (modelMapping "gpt-4o")).thinkingConfig.thinkingBudget = 0 :=
  ⟨by decide, c3_thinking_budget_forced_zero sampleConfig sampleParameters "gpt-4o" (by decide)⟩

/-- **C4** — The client model id `"claude-sonnet-4-5-thinking"` resolves to
upstream id `"claude-sonnet-4-5"` with thinking enabled, and for every
configuration and parameter object the generation config built for it has
no `topP` field at all. -/
theorem c4_sonnet_thinking_policy :
    modelMapping "claude-sonnet-4-5-thinking" = "claude-sonnet-4-5" ∧
    isEnableThinking "claude-sonnet-4-5-thinking" = true ∧
    ∀ (config : Config) (parameters : Parameters),
      (generateGenerationConfig config parameters (isEnableThinking "claude-sonnet-4-5-thinking")
          (modelMapping "claude-sonnet-4-5-thinking")).topP = Option.none :=
  ⟨rfl, by decide, fun config parameters => rfl⟩

/-- **C1 (counterexample)** — Two consecutive plain user messages yield two
adjacent turns of role `user`: the claimed no-adjacent-same-role invariant
fails on the transcoder's output. -/
theorem c1_counterexample :
    openaiMessageToAntigravity [plainUserMessage "a", plainUserMessage "b"] =
      some [{ role := "user", parts := [Part.text "a"] },
            { role := "user", parts := [Part.text "b"] }] ∧
    noAdjacentSameRole
      [{ role := "user", parts := [Part.text "a"] },
       { role := "user", parts := [Part.text "b"] }] = false :=
  ⟨rfl, rfl⟩

/-- **C1 (amended)** — Adjacent same-role turns do occur: every pair of
consecutive plain user messages is transcoded into two adjacent user
turns, each message its own turn; same-role merging is limited to the
assistant-tool-call and tool-response cases. -/
theorem c1_amended_consecutive_user_turns (a b : String) :
    openaiMessageToAntigravity [plainUserMessage a, plainUserMessage b] =
      some [{ role := "user", parts := [Part.text a] },
            { role := "user", parts := [Part.text b] }] := rfl

/-- **C7** — Two consecutive assistant messages, each with one tool call and
no non-empty text, followed by two tool messages answering them in order,
collapse into exactly one model turn holding the two functionCall parts
followed by one user turn holding the two functionResponse parts. -/
theorem c7_parallel_tool_call_collapse :
    openaiMessageToAntigravity
      [{ role := "assistant", content := .str "",
         tool_calls := [{ id := "call-1", function := { name := "f", arguments := "argsA" } }],
         tool_call_id := "" },
       { role := "assistant", content := .undef,
         tool_calls := [{ id := "call-2", function := { name := "g", arguments := "argsB" } }],
         tool_call_id := "" },
       { role := "tool", content := .str "r1", tool_calls := [], tool_call_id := "call-1" },
       { role := "tool", content := .str "r2", tool_calls := [], tool_call_id := "call-2" }] =
      some
        [{ role := "model",
           parts := [Part.functionCall { id := "call-1", name := "f", args := { query := "argsA" } },
                     Part.functionCall { id := "call-2", name := "g", args := { query := "argsB" } }] },
         { role := "user",
           parts := [Part.functionResponse
                       { id := "call-1", name := "f", response := { output := .str "r1" } },
                     Part.functionResponse
                       { id := "call-2", name := "g", response := { output := .str "r2" } }] }] := rfl

/-- **C2 (counterexample)** — With no client tool declarations the built
request still carries a `tools` field holding the empty list: the field is
present as an empty structure, not absent. -/
theorem c2_counterexample :
    (generateRequestBody sampleConfig [userHi] "gpt-4o" emptyParameters [] sampleToken
        "req-2").map (fun rb => rb.request.tools) = some (some []) ∧
    some ([] : List AntigravityTool) ≠ (Option.none : Option (List AntigravityTool)) :=
  ⟨rfl, by simp⟩

/-- **C2 (amended)** — When the client supplies no tool declarations the
`tools` field is present as an empty list, and when the merged system
instruction is empty the `systemInstruction` field is entirely absent. -/
theorem c2_amended_empty_fields (config : Config) (openaiMessages : List ClientMessage)
    (modelName : String) (parameters : Parameters) (openaiTools : List OpenAITool)
    (token : Token) (requestId : String) (rb : RequestBody)
    (h : generateRequestBody config openaiMessages modelName parameters openaiTools token
        requestId = some rb) :
    (openaiTools = [] → rb.request.tools = some []) ∧
    (extractSystemInstruction config openaiMessages = "" →
      rb.request.systemInstruction = Option.none) := by
  rcases hm : openaiMessageToAntigravity
      (openaiMessages.drop (countLeadingSystem openaiMessages)) with _ | contents
  · rw [generateRequestBody] at h
    rw [hm] at h
    exact Option.noConfusion h
  · rw [generateRequestBody] at h
    rw [hm] at h
    injection h with h2
    subst h2
    constructor
    · intro ht
      subst ht
      rfl
    · intro hs
      simp [hs]

/-- Witness for C2 (amended), at `sampleConfig`, one plain user message,
model `"gpt-4o"`, no tools. -/
theorem c2_amended_empty_fields_witness :
    (([] : List OpenAITool) = [] → gptWitnessBody.request.tools = some []) ∧
    (extractSystemInstruction sampleConfig [userHi] = "" →
      gptWitnessBody.request.systemInstruction = Option.none) :=
  c2_amended_empty_fields sampleConfig [userHi] "gpt-4o" emptyParameters [] sampleToken "req-2"
    gptWitnessBody rfl

/-- **C9 (counterexample)** — With the configured base instruction `"a "`
and no leading system messages, the attached system instruction text is
the trimmed `"a"`, not the configured `"a "`: the field is not exactly the
configured base instruction. -/
theorem c9_counterexample :
    trailingSpaceConfig.systemInstruction = "a " ∧
    (generateRequestBody trailingSpaceConfig [userHi] "gpt-4o" emptyParameters [] sampleToken
        "req-3").map (fun rb => rb.request.systemInstruction) =
      some (some { role := "user", parts := [Part.text "a"] }) ∧
    ("a" : String) ≠ "a " :=
  ⟨rfl, rfl, by decide⟩

/-- **C9 (amended)** — For every client message list whose first message is
not a system message, the system instruction attached to the built request
is exactly the trimmed configured base instruction, and the field is
absent when the base instruction trims to the empty string. -/
theorem c9_amended_system_instruction (config : Config) (openaiMessages : List ClientMessage)
    (modelName : String) (parameters : Parameters) (openaiTools : List OpenAITool)
    (token : Token) (requestId : String) (rb : RequestBody)
    (hlead : openaiMessages.head?.all (fun m => m.role != "system") = true)
    (h : generateRequestBody config openaiMessages modelName parameters openaiTools token
        requestId = some rb) :
    rb.request.systemInstruction =
      (if jsTrim config.systemInstruction ≠ "" then
        some { role := "user", parts := [Part.text (jsTrim config.systemInstruction)] }
      else Option.none) := by
  have hcollect : collectLeadingSystemTexts openaiMessages = [] := by
    cases openaiMessages with
    | nil => rfl
    | cons m rest =>
      have hms : m.role ≠ "system" := by simpa using hlead
      simp [collectLeadingSystemTexts, hms]
  have hextract : extractSystemInstruction config openaiMessages =
      (if jsTrim config.systemInstruction ≠ "" then jsTrim config.systemInstruction else "") := by
    unfold extractSystemInstruction
    rw [hcollect]
    by_cases hb : jsTrim config.systemInstruction ≠ ""
    · simp [hb, jsJoin]
    · simp [hb, jsJoin]
  rcases hm : openaiMessageToAntigravity
      (openaiMessages.drop (countLeadingSystem openaiMessages)) with _ | contents
  · rw [generateRequestBody] at h
    rw [hm] at h
    exact Option.noConfusion h
  · rw [generateRequestBody] at h
    rw [hm] at h
    injection h with h2
    subst h2
    by_cases hb : jsTrim config.systemInstruction ≠ ""
    · simp [hextract, hb]
    · simp [hextract, hb]

/-- Witness for C9 (amended) with base instruction `"Base"` and one plain
user message. -/
theorem c9_amended_system_instruction_witness :
    baseInstructionWitnessBody.request.systemInstruction =
      (if jsTrim baseInstructionConfig.systemInstruction ≠ "" then
        some { role := "user",
               parts := [Part.text (jsTrim baseInstructionConfig.systemInstruction)] }
      else Option.none) :=
  c9_amended_system_instruction baseInstructionConfig [userHi] "gpt-4o" emptyParameters []
    sampleToken "req-3" baseInstructionWitnessBody rfl rfl

/-- **C6** — A tool message whose `tool_call_id` matches no functionCall in
any previously produced turn is still translated (the step returns a
result rather than failing): it emits one functionResponse part whose name
is the empty string and whose output is the message content, appended
either into the preceding user turn or as a fresh user turn. -/
theorem c6_unresolved_tool_call_degrades (message : ClientMessage) (turns : List Turn)
    (hrole : message.role = "tool")
    (h : ∀ t ∈ turns, ∀ p ∈ t.parts, partCallId p ≠ some message.tool_call_id) :
    transcodeStep turns message = some (handleToolCall message turns) ∧
    (handleToolCall message turns =
        pushToLast turns
          [Part.functionResponse
            { id := message.tool_call_id, name := "",
              response := { output := message.content } }] ∨
      handleToolCall message turns =
        turns ++ [{ role := "user",
                    parts := [Part.functionResponse
                      { id := message.tool_call_id, name := "",
                        response := { output := message.content } }] }]) := by
  have hres := resolveFunctionName_empty message.tool_call_id turns h
  constructor
  · simp [transcodeStep, hrole]
  · simp only [handleToolCall, hres]
    split
    · exact Or.inl rfl
    · exact Or.inr rfl

/-- Witness for C6: a tool message with id `"missing"` against a turn list
whose only functionCall has id `"other"`. -/
theorem c6_unresolved_tool_call_degrades_witness :
    transcodeStep c6Turns c6Message = some (handleToolCall c6Message c6Turns) ∧
    (handleToolCall c6Message c6Turns = pushToLast c6Turns [c6Response] ∨
      handleToolCall c6Message c6Turns =
        c6Turns ++ [{ role := "user", parts := [c6Response] }]) :=
  c6_unresolved_tool_call_degrades c6Message c6Turns rfl (by decide)

/-- **C10** — The alias table remaps the client id `"claude-opus-4-5"` to
the upstream id `"claude-opus-4-5-thinking"` while the thinking policy for
`"claude-opus-4-5"` is false: every request built for this identifier
targets the thinking upstream model yet carries `includeThoughts = false`
and `thinkingBudget = 0`. -/
theorem c10_opus_alias_thinking_policy (config : Config) (openaiMessages : List ClientMessage)
    (parameters : Parameters) (openaiTools : List OpenAITool) (token : Token)
    (requestId : String) (rb : RequestBody)
    (h : generateRequestBody config openaiMessages "claude-opus-4-5" parameters openaiTools
        token requestId = some rb) :
    rb.model = "claude-opus-4-5-thinking" ∧
    rb.request.generationConfig.thinkingConfig.includeThoughts = false ∧
    rb.request.generationConfig.thinkingConfig.thinkingBudget = 0 := by
  rcases hm : openaiMessageToAntigravity
      (openaiMessages.drop (countLeadingSystem openaiMessages)) with _ | contents
  · rw [generateRequestBody] at h
    rw [hm] at h
    exact Option.noConfusion h
  · rw [generateRequestBody] at h
    rw [hm] at h
    injection h with h2
    subst h2
    exact ⟨rfl, rfl, rfl⟩

/-- Witness for C10 at `sampleConfig`, one plain user message, no tools. -/
theorem c10_opus_alias_thinking_policy_witness :
    opusWitnessBody.model = "claude-opus-4-5-thinking" ∧
    opusWitnessBody.request.generationConfig.thinkingConfig.includeThoughts = false ∧
    opusWitnessBody.request.generationConfig.thinkingConfig.thinkingBudget = 0 :=
  c10_opus_alias_thinking_policy sampleConfig [userHi] emptyParameters [] sampleToken "req-1"
    opusWitnessBody rfl

theorem callsInTurns_pushToLast (front : List Turn) (last : Turn) (ps : List Part) :
    callsInTurns (pushToLast (front ++ [last]) ps) =
      callsInTurns (front ++ [last]) ++ callsInParts ps := by
  rw [pushToLast_concat, callsInTurns_append, callsInTurns_append]
  simp [callsInTurns, callsInParts_append, List.append_assoc]

theorem responsesInTurns_pushToLast (front : List Turn) (last : Turn) (ps : List Part) :
    responsesInTurns (pushToLast (front ++ [last]) ps) =
      responsesInTurns (front ++ [last]) ++ responsesInParts ps := by
  rw [pushToLast_concat, responsesInTurns_append, responsesInTurns_append]
  simp [responsesInTurns, responsesInParts_append, List.append_assoc]

theorem modelOnlyCalls_pushToLast (front : List Turn) (last : Turn) (ps : List Part)
    (h : modelOnlyCalls (front ++ [last]))
    (hok : last.role = "model" ∨ callsInParts ps = []) :
    modelOnlyCalls (pushToLast (front ++ [last]) ps) := by
  rw [pushToLast_concat]
  intro t ht hrole
  rcases List.mem_append.mp ht with ht1 | ht2
  · exact h t (List.mem_append.mpr (Or.inl ht1)) hrole
  · simp only [List.mem_singleton] at ht2
    subst ht2
    rcases hok with hm | hempty
    · exact absurd hm hrole
    · have hl : callsInParts last.parts = [] :=
        h last (List.mem_append.mpr (Or.inr (by simp))) hrole
      show callsInParts (last.parts ++ ps) = []
      rw [callsInParts_append, hl, hempty]
      rfl

theorem modelOnlyCalls_append_user_response (turns : List Turn) (fr : FunctionResponse)
    (h : modelOnlyCalls turns) :
    modelOnlyCalls (turns ++ [{ role := "user", parts := [Part.functionResponse fr] }]) := by
  intro t ht hrole
  rcases List.mem_append.mp ht with ht1 | ht2
  · exact h t ht1 hrole
  · simp only [List.mem_singleton] at ht2
    subst ht2
    rfl

theorem modelOnlyCalls_append_model (turns : List Turn) (parts : List Part)
    (h : modelOnlyCalls turns) :
    modelOnlyCalls (turns ++ [{ role := "model", parts := parts }]) := by
  intro t ht hrole
  rcases List.mem_append.mp ht with ht1 | ht2
  · exact h t ht1 hrole
  · simp only [List.mem_singleton] at ht2
    subst ht2
    exact absurd rfl hrole

theorem handleToolCall_invariant (m : ClientMessage) (turns : List Turn) :
    callsInTurns (handleToolCall m turns) = callsInTurns turns ∧
    responsesInTurns (handleToolCall m turns) =
      responsesInTurns turns ++
        [{ id := m.tool_call_id, name := resolveFunctionName turns m.tool_call_id,
           response := { output := m.content } }] ∧
    (modelOnlyCalls turns → modelOnlyCalls (handleToolCall m turns)) := by
  rcases List.eq_nil_or_concat turns with rfl | ⟨front, last, heq⟩
  · refine ⟨rfl, rfl, fun _ => ?_⟩
    intro t ht hrole
    simp [handleToolCall] at ht
    subst ht
    rfl
  · rw [List.concat_eq_append] at heq
    subst heq
    by_cases hc : (decide (last.role = "user") && List.any last.parts partIsFunctionResponse) = true
    · have hres : handleToolCall m (front ++ [last]) =
          pushToLast (front ++ [last])
            [Part.functionResponse
              { id := m.tool_call_id,
                name := resolveFunctionName (front ++ [last]) m.tool_call_id,
                response := { output := m.content } }] := by
        simp only [handleToolCall, List.getLast?_concat]
        rw [if_pos hc]
      rw [hres]
      refine ⟨?_, ?_, fun hm => ?_⟩
      · rw [callsInTurns_pushToLast]
        simp [callsInParts]
      · rw [responsesInTurns_pushToLast]
        simp [responsesInParts]
      · exact modelOnlyCalls_pushToLast front last _ hm (Or.inr rfl)
    · have hres : handleToolCall m (front ++ [last]) =
          (front ++ [last]) ++
            [{ role := "user",
               parts := [Part.functionResponse
                 { id := m.tool_call_id,
                   name := resolveFunctionName (front ++ [last]) m.tool_call_id,
                   response := { output := m.content } }] }] := by
        simp only [handleToolCall, List.getLast?_concat]
        rw [if_neg hc]
      rw [hres]
      refine ⟨?_, ?_, fun hm => ?_⟩
      · rw [callsInTurns_append]
        simp [callsInTurns, callsInParts]
      · rw [responsesInTurns_append]
        simp [responsesInTurns, responsesInParts]
      · exact modelOnlyCalls_append_user_response (front ++ [last]) _ hm

theorem callsInParts_text_ite (P : Prop) [Decidable P] (x : String) :
    callsInParts (if P then [Part.text x] else []) = [] := by split <;> rfl

theorem responsesInParts_text_ite (P : Prop) [Decidable P] (x : String) :
    responsesInParts (if P then [Part.text x] else []) = [] := by split <;> rfl

theorem callsInParts_tools_ite (tcs : List ToolCall) :
    callsInParts (if (!tcs.isEmpty) = true then
        List.map (fun toolCall => Part.functionCall (fcOfToolCall toolCall)) tcs
      else []) = List.map fcOfToolCall tcs := by
  split
  · exact callsInParts_map_fc tcs
  · next hni =>
    obtain rfl : tcs = [] := by simpa using hni
    rfl

theorem responsesInParts_tools_ite (tcs : List ToolCall) :
    responsesInParts (if (!tcs.isEmpty) = true then
        List.map (fun toolCall => Part.functionCall (fcOfToolCall toolCall)) tcs
      else []) = [] := by
  split
  · exact responsesInParts_map_fc tcs
  · rfl

theorem transcodeStep_tool (m : ClientMessage) (turns : List Turn) (h : m.role = "tool") :
    transcodeStep turns m = some (handleToolCall m turns) := by
  simp [transcodeStep, h]

theorem transcodeStep_assistant (m : ClientMessage) (turns : List Turn)
    (h : m.role = "assistant") :
    transcodeStep turns m = handleAssistantMessage m turns := by
  simp [transcodeStep, h]

theorem handleAssistantMessage_invariant (m : ClientMessage) (turns : List Turn)
    (harr : contentIsArray m.content = false) :
    ∃ turns1, handleAssistantMessage m turns = some turns1 ∧
      callsInTurns turns1 = callsInTurns turns ++ m.tool_calls.map fcOfToolCall ∧
      responsesInTurns turns1 = responsesInTurns turns ∧
      (modelOnlyCalls turns → modelOnlyCalls turns1) := by
  obtain ⟨role, content, tcs, tcid⟩ := m
  cases content with
  | list items => simp [contentIsArray] at harr
  | str s =>
    simp only [handleAssistantMessage, contentIsArray, Bool.false_eq_true, if_false]
    simp only [← apply_ite Option.some]
    refine ⟨_, rfl, ?_⟩
    split
    · next hcond =>
      rcases List.eq_nil_or_concat turns with rfl | ⟨front, last, heq⟩
      · simp at hcond
      · rw [List.concat_eq_append] at heq
        subst heq
        rw [List.getLast?_concat] at hcond
        simp only [Bool.and_eq_true, decide_eq_true_eq] at hcond
        obtain ⟨⟨hrole, h2⟩, h3⟩ := hcond
        refine ⟨?_, ?_, fun hm => ?_⟩
        · rw [callsInTurns_pushToLast, callsInParts_tools_ite]
        · rw [responsesInTurns_pushToLast, responsesInParts_tools_ite, List.append_nil]
        · exact modelOnlyCalls_pushToLast front last _ hm (Or.inl hrole)
    · refine ⟨?_, ?_, fun hm => modelOnlyCalls_append_model turns _ hm⟩
      · rw [callsInTurns_append]
        simp [callsInTurns, callsInParts_append, callsInParts_text_ite, callsInParts_tools_ite]
        split
        · next heq => subst heq; rfl
        · exact callsInParts_map_fc tcs
      · rw [responsesInTurns_append]
        simp [responsesInTurns, responsesInParts_append, responsesInParts_text_ite,
          responsesInParts_tools_ite]
        split
        · rfl
        · exact responsesInParts_map_fc tcs
  | undef =>
    simp only [handleAssistantMessage, contentIsArray, Bool.false_eq_true, if_false]
    simp only [← apply_ite Option.some]
    refine ⟨_, rfl, ?_⟩
    split
    · next hcond =>
      rcases List.eq_nil_or_concat turns with rfl | ⟨front, last, heq⟩
      · simp at hcond
      · rw [List.concat_eq_append] at heq
        subst heq
        rw [List.getLast?_concat] at hcond
        simp only [Bool.and_eq_true, decide_eq_true_eq] at hcond
        obtain ⟨⟨hrole, h2⟩, h3⟩ := hcond
        refine ⟨?_, ?_, fun hm => ?_⟩
        · rw [callsInTurns_pushToLast, callsInParts_tools_ite]
        · rw [responsesInTurns_pushToLast, responsesInParts_tools_ite, List.append_nil]
        · exact modelOnlyCalls_pushToLast front last _ hm (Or.inl hrole)
    · refine ⟨?_, ?_, fun hm => modelOnlyCalls_append_model turns _ hm⟩
      · rw [callsInTurns_append]
        simp [callsInTurns, callsInParts_append, callsInParts_tools_ite]
        split
        · next heq => subst heq; rfl
        · exact callsInParts_map_fc tcs
      · rw [responsesInTurns_append]
        simp [responsesInTurns, responsesInParts_append, responsesInParts_tools_ite]
        split
        · rfl
        · exact responsesInParts_map_fc tcs

theorem openaiMessageToAntigravityAux_append (xs ys : List ClientMessage) :
    ∀ turns, openaiMessageToAntigravityAux (xs ++ ys) turns =
      (openaiMessageToAntigravityAux xs turns).bind (openaiMessageToAntigravityAux ys) := by
  induction xs with
  | nil => intro turns; rfl
  | cons m xs ih =>
    intro turns
    rw [List.cons_append]
    simp only [openaiMessageToAntigravityAux]
    cases htc : transcodeStep turns m with
    | none => rfl
    | some turns1 => exact ih turns1

theorem transcode_assistants (A : List ClientMessage) :
    ∀ (turns : List Turn),
    (∀ m ∈ A, m.role = "assistant" ∧ contentIsArray m.content = false) →
    ∃ turnsA, openaiMessageToAntigravityAux A turns = some turnsA ∧
      callsInTurns turnsA = callsInTurns turns ++ (flatToolCalls A).map fcOfToolCall ∧
      responsesInTurns turnsA = responsesInTurns turns ∧
      (modelOnlyCalls turns → modelOnlyCalls turnsA) := by
  induction A with
  | nil =>
    intro turns _
    exact ⟨turns, rfl, by simp [flatToolCalls], rfl, fun hm => hm⟩
  | cons m A ih =>
    intro turns hA
    obtain ⟨hrole, harr⟩ := hA m (List.mem_cons_self _ _)
    obtain ⟨turns1, hstep, hc1, hr1, hm1⟩ := handleAssistantMessage_invariant m turns harr
    obtain ⟨turnsA, hrest, hc2, hr2, hm2⟩ :=
      ih turns1 (fun x hx => hA x (List.mem_cons_of_mem _ hx))
    refine ⟨turnsA, ?_, ?_, ?_, fun hm => hm2 (hm1 hm)⟩
    · simp only [openaiMessageToAntigravityAux, transcodeStep_assistant m turns hrole, hstep]
      exact hrest
    · rw [hc2, hc1, flatToolCalls]
      simp [List.append_assoc]
    · rw [hr2, hr1]

theorem transcode_tools (T : List ClientMessage) :
    ∀ (turns : List Turn) (calls : List FunctionCall),
    (∀ m ∈ T, m.role = "tool" ∧ m.tool_call_id ∈ calls.map FunctionCall.id) →
    callsInTurns turns = calls →
    modelOnlyCalls turns →
    (calls.map FunctionCall.id).Nodup →
    (∀ c ∈ calls, c.name ≠ "") →
    (∀ fr ∈ responsesInTurns turns,
        fr.name ≠ "" ∧ ∃ fc ∈ calls, fc.id = fr.id ∧ fc.name = fr.name) →
    ∃ turns2, openaiMessageToAntigravityAux T turns = some turns2 ∧
      callsInTurns turns2 = calls ∧
      ∀ fr ∈ responsesInTurns turns2,
        fr.name ≠ "" ∧ ∃ fc ∈ calls, fc.id = fr.id ∧ fc.name = fr.name := by
  induction T with
  | nil =>
    intro turns calls _ hcalls _ _ _ hgood
    exact ⟨turns, rfl, hcalls, hgood⟩
  | cons m T ih =>
    intro turns calls hT hcalls hmodel hnodup hnames hgood
    obtain ⟨hrole, hid⟩ := hT m (List.mem_cons_self _ _)
    obtain ⟨c, hcmem, hcid⟩ := List.mem_map.mp hid
    have hcname := hnames c hcmem
    have hres : resolveFunctionName turns m.tool_call_id = c.name :=
      resolveFunctionName_unique turns m.tool_call_id c.name hcname
        ⟨c, by rw [hcalls]; exact hcmem, hcid⟩
        (fun fc hfc hfcid => by
          have hfc2 : fc ∈ calls := by rw [← hcalls]; exact hfc
          have heq : fc = c :=
            List.inj_on_of_nodup_map hnodup hfc2 hcmem (by rw [hfcid, hcid])
          rw [heq])
        hmodel
    obtain ⟨hc1, hr1, hm1⟩ := handleToolCall_invariant m turns
    rw [hres] at hr1
    obtain ⟨turns2, hrest, hc2, hgood2⟩ :=
      ih (handleToolCall m turns) calls (fun x hx => hT x (List.mem_cons_of_mem _ hx))
        (by rw [hc1, hcalls]) (hm1 hmodel) hnodup hnames
        (by
          rw [hr1]
          intro fr hfr
          rcases List.mem_append.mp hfr with hfr1 | hfr2
          · exact hgood fr hfr1
          · simp only [List.mem_singleton] at hfr2
            subst hfr2
            exact ⟨hcname, c, hcmem, hcid, rfl⟩)
    refine ⟨turns2, ?_, hc2, hgood2⟩
    simp only [openaiMessageToAntigravityAux, transcodeStep_tool m turns hrole]
    exact hrest

/-- **C5** — For every sequence of assistant messages carrying tool calls
(with pairwise distinct ids and non-empty function names, and content that
is a string or absent) followed by tool messages answering every call in
order, every functionResponse part of the transcoded output carries a
non-empty name equal to the name of the functionCall part with the
matching id. -/
theorem c5_function_response_names (A T : List ClientMessage)
    (hA : ∀ m ∈ A, m.role = "assistant" ∧ m.tool_calls ≠ [] ∧ contentIsArray m.content = false)
    (hT : ∀ m ∈ T, m.role = "tool")
    (horder : T.map ClientMessage.tool_call_id = (flatToolCalls A).map ToolCall.id)
    (hnodup : ((flatToolCalls A).map ToolCall.id).Nodup)
    (hnames : ∀ c ∈ flatToolCalls A, c.function.name ≠ "") :
    ∃ turns, openaiMessageToAntigravity (A ++ T) = some turns ∧
      ∀ fr ∈ responsesInTurns turns,
        fr.name ≠ "" ∧ ∃ fc ∈ callsInTurns turns, fc.id = fr.id ∧ fc.name = fr.name := by
  obtain ⟨turnsA, hA1, hcallsA, hrespA, hmodelA⟩ :=
    transcode_assistants A [] (fun m hm => ⟨(hA m hm).1, (hA m hm).2.2⟩)
  have hidmap : ((flatToolCalls A).map fcOfToolCall).map FunctionCall.id =
      (flatToolCalls A).map ToolCall.id := map_id_fcOfToolCall _
  obtain ⟨turns2, hT1, hcalls2, hgood2⟩ :=
    transcode_tools T turnsA ((flatToolCalls A).map fcOfToolCall)
      (fun m hm => ⟨hT m hm, by
        rw [hidmap, ← horder]
        exact List.mem_map_of_mem _ hm⟩)
      (by rw [hcallsA]; rfl)
      (hmodelA (fun t ht => absurd ht (List.not_mem_nil t)))
      (by rw [hidmap]; exact hnodup)
      (by
        intro c hc
        obtain ⟨tc, htc, rfl⟩ := List.mem_map.mp hc
        exact hnames tc htc)
      (by
        rw [hrespA]
        intro fr hfr
        exact absurd hfr (List.not_mem_nil fr))
  refine ⟨turns2, ?_, ?_⟩
  · rw [openaiMessageToAntigravity, openaiMessageToAntigravityAux_append, hA1]
    exact hT1
  · rw [hcalls2]
    exact hgood2

/-- Witness for C5: one assistant message with a single call answered by
one tool message. -/
theorem c5_function_response_names_witness :
    ∃ turns, openaiMessageToAntigravity
        ([{ role := "assistant", content := .str "",
            tool_calls := [{ id := "call-9", function := { name := "fn", arguments := "a" } }],
            tool_call_id := "" }] ++
         [{ role := "tool", content := .str "out", tool_calls := [],
            tool_call_id := "call-9" }]) = some turns ∧
      ∀ fr ∈ responsesInTurns turns,
        fr.name ≠ "" ∧ ∃ fc ∈ callsInTurns turns, fc.id = fr.id ∧ fc.name = fr.name :=
  c5_function_response_names _ _ (by decide) (by decide) (by decide) (by decide) (by decide)

end AG
